import Mathlib

/-
Verification of the settings subsystem of the cliapp library
(src/cliapp/settings.py), as a shallow embedding in Lean 4.

Conventions of the embedding:
* Python strings are Lean String values; character-level work uses List Char.
* Machine behaviour of the Python runtime that the source relies on is
  modelled explicitly: str() of an integer, int() of a string, float() of a
  decimal string (IEEE binary64 round-to-nearest-even), and dict assignment.
  ASCII inputs are modelled; non-ASCII digit and whitespace classes of the
  Python runtime are outside the scope of the claims checked here.
* Fallible Python code (raising exceptions) is embedded with Option/Except.
* All definitions are executable; no well-founded recursion is used in
  definitions that concrete witnesses must evaluate, fuel is used instead.
-/

set_option autoImplicit false

namespace Cliapp

/-! ## Python character and string primitives -/

/-- ASCII decimal digit test, the character class matched by a regex digit
in the size pattern of ByteSizeSetting.parse_human_size. -/
def isAsciiDigit (c : Char) : Bool :=
  48 ≤ c.toNat && c.toNat ≤ 57

/-- ASCII whitespace, the character class of regex whitespace and of the
default str.strip of Python: space, tab, newline, carriage return,
vertical tab, form feed. -/
def isPyWs (c : Char) : Bool :=
  c.toNat = 32 || c.toNat = 9 || c.toNat = 10 || c.toNat = 13 ||
    c.toNat = 11 || c.toNat = 12

/-- Numeric value of an ASCII digit character. -/
def digitVal (c : Char) : Nat :=
  c.toNat - 48

/-- The ASCII digit character for a value below ten. -/
def decDigitChar (n : Nat) : Char :=
  Char.ofNat (48 + n)

/-- Lower-casing of one ASCII character, modelling str.lower on the ASCII
range. -/
def asciiLowerChar (c : Char) : Char :=
  if 65 ≤ c.toNat && c.toNat ≤ 90 then Char.ofNat (c.toNat + 32) else c

/-- Models Python str.lower restricted to ASCII text. -/
def asciiLower (s : String) : String :=
  ⟨s.data.map asciiLowerChar⟩

/-- Value of a big-endian list of ASCII digit characters. -/
def decval (cs : List Char) : Nat :=
  cs.foldl (fun a c => 10 * a + digitVal c) 0

/-- Fuelled production of the decimal digits of a natural number,
most-significant first.  The fuel argument makes the definition
structurally recursive so that concrete witnesses reduce in the kernel. -/
def pyDigitsAux : Nat → Nat → List Char
  | 0, _ => []
  | fuel + 1, n =>
    if n < 10 then [decDigitChar n]
    else pyDigitsAux fuel (n / 10) ++ [decDigitChar (n % 10)]

/-- Models Python str() applied to a non-negative integer: its decimal
digit string. -/
def pyStrOfNat (n : Nat) : String :=
  ⟨pyDigitsAux (n + 1) n⟩

/-- Models Python str() applied to an integer, with a sign for negatives. -/
def pyStrOfInt (i : Int) : String :=
  if i < 0 then ⟨'-' :: (pyStrOfNat i.natAbs).data⟩ else pyStrOfNat i.natAbs

/-- Strip leading and trailing characters satisfying p from a character
list: the default str.strip of Python at the list level. -/
def stripWhile (p : Char → Bool) (cs : List Char) : List Char :=
  ((cs.dropWhile p).reverse.dropWhile p).reverse

/-- Models Python str.strip() with the ASCII whitespace class. -/
def pyStrip (s : String) : String :=
  ⟨stripWhile isPyWs s.data⟩

/-- Underscore-separated digit group validity for Python int():
non-empty, every character a digit or an underscore, no underscore at
either end and no two adjacent underscores. -/
def okDigitGroup (cs : List Char) : Bool :=
  !cs.isEmpty &&
  cs.all (fun c => isAsciiDigit c || c == '_') &&
  cs.head? != some '_' &&
  cs.getLast? != some '_' &&
  (cs.zip cs.tail).all (fun p => !(p.1 == '_' && p.2 == '_'))

/-- Digit-group parse for Python int(): validity check plus the value of
the digits with underscores removed. -/
def parseDigitGroup (cs : List Char) : Option Nat :=
  if okDigitGroup cs then some (decval (cs.filter isAsciiDigit)) else none

/-- Models the built-in int() conversion of Python applied to a string:
surrounding whitespace is stripped, an optional sign is honoured, and the
rest must be a valid decimal digit group (underscore separators allowed).
Returns none where int() raises ValueError. -/
def pyIntOfString (s : String) : Option Int :=
  let cs := stripWhile isPyWs s.data
  if cs.head? = some '+' then (parseDigitGroup cs.tail).map Int.ofNat
  else if cs.head? = some '-' then
    (parseDigitGroup cs.tail).map (fun n => -(n : Int))
  else (parseDigitGroup cs).map Int.ofNat

/-! ## A model of IEEE binary64 rounding

ByteSizeSetting.parse_human_size converts the matched number with the
built-in float() of Python and multiplies it by the unit, so its results
carry the rounding of IEEE binary64 arithmetic.  The model below rounds a
non-negative rational to 53 significant bits with round-to-nearest,
ties-to-even, which is the behaviour of float() on decimal strings and of
float multiplication.  Overflow to infinity (inputs of the order of
1.8e308, where int() of the result raises OverflowError) and the subnormal
range are outside the inputs exercised by the claims and are not modelled. -/

/-- Fuelled floor of the base-two logarithm (structurally recursive so
that it reduces in the kernel). -/
def natLog2Go : Nat → Nat → Nat
  | 0, _ => 0
  | fuel + 1, n => if n < 2 then 0 else natLog2Go fuel (n / 2) + 1

/-- Floor of the base-two logarithm of a positive natural number. -/
def natLog2 (n : Nat) : Nat := natLog2Go n n

/-- A non-negative dyadic rational m * 2 ^ e, the value space of the
binary64 model. -/
structure Dy where
  m : Nat
  e : Int
  deriving DecidableEq, Repr

/-- Floor of the base-two logarithm of the positive rational num / den. -/
def ratLog2 (num den : Nat) : Int :=
  if den ≤ num then (natLog2 (num / den) : Int)
  else
    let c := natLog2 (den / num)
    if den ≤ num * 2 ^ c then -(c : Int) else -((c : Int) + 1)

/-- Round the non-negative rational num / den to 53 significant bits,
nearest, ties to even: the binary64 rounding applied by float(). -/
def roundRat (num den : Nat) : Dy :=
  if num = 0 then ⟨0, 0⟩
  else
    let e := ratLog2 num den
    let shift := 52 - e
    let bigN := if 0 ≤ shift then num * 2 ^ shift.toNat else num
    let bigD := if 0 ≤ shift then den else den * 2 ^ (-shift).toNat
    let q := bigN / bigD
    let r := bigN % bigD
    let m := if bigD < 2 * r || (2 * r == bigD && q % 2 == 1) then q + 1 else q
    ⟨m, e - 52⟩

/-- Truncation of a non-negative dyadic value to an integer: the int()
conversion applied to the final float. -/
def dyTrunc (d : Dy) : Nat :=
  if 0 ≤ d.e then d.m * 2 ^ d.e.toNat else d.m / 2 ^ (-d.e).toNat

/-- Binary64 multiplication of a rounded value by an exactly-representable
natural multiplier: the exact product re-rounded to 53 bits. -/
def floatMulNat (d : Dy) (u : Nat) : Dy :=
  if 0 ≤ d.e then roundRat (d.m * u * 2 ^ d.e.toNat) 1
  else roundRat (d.m * u) (2 ^ (-d.e).toNat)

/-! ## ByteSizeSetting.parse_human_size -/

/-- The unit suffixes accepted after the number by the size regex of
parse_human_size, paired with their multipliers from the units dict:
each unit from the alternation k|ki|m|mi|g|gi|t|ti optionally followed by
a literal b, or the empty suffix / bare b (multiplier one).  Backtracking
of the ordered alternation makes the accepted suffix set exactly this
table. -/
def unitTable : List (String × Nat) :=
  [("", 1), ("b", 1),
   ("k", 10 ^ 3), ("kb", 10 ^ 3), ("ki", 2 ^ 10), ("kib", 2 ^ 10),
   ("m", 10 ^ 6), ("mb", 10 ^ 6), ("mi", 2 ^ 20), ("mib", 2 ^ 20),
   ("g", 10 ^ 9), ("gb", 10 ^ 9), ("gi", 2 ^ 30), ("gib", 2 ^ 30),
   ("t", 10 ^ 12), ("tb", 10 ^ 12), ("ti", 2 ^ 40), ("tib", 2 ^ 40)]

/-- Match the tail of the size regex after the number: optional
whitespace, then an optional unit with optional b, then optional
whitespace and end of input.  Returns the unit multiplier. -/
def matchSizeTail (cs : List Char) : Option Nat :=
  let afterWs := cs.dropWhile isPyWs
  let core := (afterWs.reverse.dropWhile isPyWs).reverse
  unitTable.lookup ⟨core⟩

/-- Match the size regex of parse_human_size against a lower-cased
character list: one or more digits, an optional fractional part, then the
unit tail.  Returns the integer digits, the fractional digits, and the
unit multiplier. -/
def matchSize (cs : List Char) : Option (List Char × List Char × Nat) :=
  let ip := cs.takeWhile isAsciiDigit
  let rest := cs.dropWhile isAsciiDigit
  if ip.isEmpty then none
  else
    match rest with
    | '.' :: r =>
      let fp := r.takeWhile isAsciiDigit
      let r2 := r.dropWhile isAsciiDigit
      if fp.isEmpty then none
      else (matchSizeTail r2).map (fun u => (ip, fp, u))
    | r => (matchSizeTail r).map (fun u => (ip, [], u))

/-- Embedding of ByteSizeSetting.parse_human_size: match the size regex
against the lower-cased input; on failure return zero, otherwise convert
the number with float(), multiply by the unit multiplier, and truncate to
an integer. -/
def parse_human_size (s : String) : Nat :=
  match matchSize (asciiLower s).data with
  | none => 0
  | some (ip, fp, mult) =>
    let k := fp.length
    let num := decval ip * 10 ^ k + decval fp
    dyTrunc (floatMulNat (roundRat num (10 ^ k)) mult)

/-! ## StringListSetting.parse_value -/

/-- The character loop of StringListSetting.parse_value: double quotes are
consumed and toggle the quoting state, commas outside quotes end the
current field, and every other character is appended to the current
field.  After the loop the final field is kept only when non-empty.  The
imperative accumulation is rendered as a recursion yielding the completed
fields in order. -/
def slLoop : List Char → List Char → Bool → List (List Char)
  | [], value, _ => if value.isEmpty then [] else [value]
  | c :: rest, value, insideQuote =>
    if c = '"' then slLoop rest value (!insideQuote)
    else if c = ',' ∧ insideQuote = false then value :: slLoop rest [] insideQuote
    else slLoop rest (value ++ [c]) insideQuote

/-- Embedding of StringListSetting.parse_value: split on unquoted commas,
drop quote characters, then strip surrounding whitespace from every
field. -/
def string_list_parse (s : String) : List String :=
  (slLoop s.data [] false).map (fun v => pyStrip ⟨v⟩)

/-! ## Setting objects

One constructor per Setting subclass of settings.py; each carries the
alias name list and the value state fields of that subclass.  The help
text, metavar, group and hidden flag are presentation-only attributes
that no behaviour of the claims depends on, and are not carried.  For
the plain StringSetting the stored value is an Option since the base
class stores whatever object it is given and has_value compares against
None; the other string-storing subclasses normalise to a string in
set_value. -/

inductive SettingObj where
  | stringS (names : List String) (value : Option String)
  | stringList (names : List String) (strings : List String)
      (usingDefault : Bool)
  | choiceS (names : List String) (choices : List String) (value : String)
  | booleanS (names : List String) (value : String)
  | bytesizeS (names : List String) (value : String)
  | integerS (names : List String) (value : String)
  deriving DecidableEq, Repr

/-- The typed values get_value can produce. -/
inductive PyVal where
  | pyNone
  | pyStr (s : String)
  | pyInt (i : Int)
  | pyBool (b : Bool)
  | pyList (l : List String)
  deriving DecidableEq, Repr

/-- The exceptions the embedded operations can raise. -/
inductive PyErr where
  | unknownConfigVariable (msg : String)
  | valueError
  | ioError (path : String)
  | optparseBadChoice
  | optparseBadInt
  | unknownOption
  | internalError
  deriving DecidableEq, Repr

/-- The truth test of BooleanSetting: the lower-cased string is a member
of the trues list yes, on, 1, true. -/
def pyTruthStr (s : String) : Bool :=
  ["yes", "on", "1", "true"].contains (asciiLower s)

/-- Embedding of Setting.parse_value and its overrides: parsing a raw
config-file string assigns through set_value of the variant.  The base
class stores the string; StringListSetting splits it (set_value clears
the using-default flag); ChoiceSetting inherits the base storing
behaviour with no membership check; BooleanSetting normalises to yes/no;
ByteSizeSetting stores str(parse_human_size(s)); IntegerSetting stores
str(s), which is s itself. -/
def parse_value : SettingObj → String → SettingObj
  | .stringS names _, s => .stringS names (some s)
  | .stringList names _ _, s => .stringList names (string_list_parse s) false
  | .choiceS names choices _, s => .choiceS names choices s
  | .booleanS names _, s =>
    .booleanS names (if pyTruthStr s then "yes" else "no")
  | .bytesizeS names _, s => .bytesizeS names (pyStrOfNat (parse_human_size s))
  | .integerS names _, s => .integerS names s

/-- Embedding of get_value per variant.  ByteSizeSetting and
IntegerSetting convert the stored string with int(), which raises
ValueError when the string is not a valid integer literal. -/
def get_value : SettingObj → Except PyErr PyVal
  | .stringS _ value =>
    .ok (match value with | none => .pyNone | some s => .pyStr s)
  | .stringList _ strings _ => .ok (.pyList strings)
  | .choiceS _ _ value => .ok (.pyStr value)
  | .booleanS _ value => .ok (.pyBool (pyTruthStr value))
  | .bytesizeS _ value =>
    match pyIntOfString value with
    | none => .error .valueError
    | some i => .ok (.pyInt i)
  | .integerS _ value =>
    match pyIntOfString value with
    | none => .error .valueError
    | some i => .ok (.pyInt i)

/-- Embedding of has_value: the base class answers whether the current
value is not None, StringListSetting overrides it to compare against the
empty list.  For the int-converting variants the base implementation
evaluates get_value, so it can itself raise. -/
def has_value : SettingObj → Except PyErr Bool
  | .stringS _ value => .ok value.isSome
  | .stringList _ strings _ => .ok (decide (strings ≠ []))
  | .choiceS _ _ _ => .ok true
  | .booleanS _ _ => .ok true
  | .bytesizeS _ value =>
    match pyIntOfString value with
    | none => .error .valueError
    | some _ => .ok true
  | .integerS _ value =>
    match pyIntOfString value with
    | none => .error .valueError
    | some _ => .ok true

/-- The using-default reset applied by Settings._read_ini after a value
is parsed from a config file: only StringListSetting has the attribute. -/
def postIniFlag : SettingObj → SettingObj
  | .stringList names strings _ => .stringList names strings true
  | o => o

/-! ## The settings store -/

/-- Assignment into a Python dict modelled on an association list: the
binding of an existing key is overwritten in place, a new key is
appended. -/
def dictSet {α : Type} : List (String × α) → String → α → List (String × α)
  | [], k, v => [(k, v)]
  | (k1, v1) :: rest, k, v =>
    if k1 = k then (k, v) :: rest else (k1, v1) :: dictSet rest k v

/-- Embedding of the state of a Settings object.  Setting objects live in
an indexed list so that several alias names can share one mutable
object; the settingses dict maps alias names to indices. -/
structure SettingsState where
  objects : List SettingObj
  settingses : List (String × Nat)
  canonicalNames : List String
  configFiles : Option (List String)
  requiredConfigFiles : List String
  allConfigData : List (String × List (String × String))
  deriving DecidableEq, Repr

/-- Replace the setting object at an index. -/
def setObj (st : SettingsState) (i : Nat) (obj : SettingObj) : SettingsState :=
  { st with objects := st.objects.set i obj }

/-- The names attribute shared by every Setting variant. -/
def SettingObj.names : SettingObj → List String
  | .stringS names _ => names
  | .stringList names _ _ => names
  | .choiceS names _ _ => names
  | .booleanS names _ => names
  | .bytesizeS names _ => names
  | .integerS names _ => names

/-- Embedding of Settings._add_setting: append the first alias to the
canonical-name list and bind every alias name to the new object in the
settingses dict.  The alias list of a setting is always non-empty in the
source; an empty list would raise IndexError there, here the canonical
entry defaults to the empty string. -/
def addSetting (st : SettingsState) (obj : SettingObj) : SettingsState :=
  let i := st.objects.length
  { st with
    objects := st.objects ++ [obj]
    canonicalNames := st.canonicalNames ++ [obj.names.headD ""]
    settingses := obj.names.foldl (fun d name => dictSet d name i) st.settingses }

/-- Embedding of Settings.string: Setting.__init__ stores the default
through set_value. -/
def registerString (st : SettingsState) (names : List String)
    (default : String) : SettingsState :=
  addSetting st (.stringS names (some default))

/-- Embedding of Settings.string_list: the base initialiser runs with an
empty list, then the declared default (or the empty list) is installed
and the using-default flag set. -/
def registerStringList (st : SettingsState) (names : List String)
    (default : List String) : SettingsState :=
  addSetting st (.stringList names default true)

/-- Embedding of Settings.choice: the default value is the first listed
choice (an empty possibilities list would raise IndexError in the
source). -/
def registerChoice (st : SettingsState) (names : List String)
    (possibilities : List String) : SettingsState :=
  addSetting st (.choiceS names possibilities (possibilities.headD ""))

/-- Embedding of Settings.boolean: BooleanSetting.set_value normalises
the default to yes or no. -/
def registerBoolean (st : SettingsState) (names : List String)
    (default : Bool) : SettingsState :=
  addSetting st (.booleanS names (if default then "yes" else "no"))

/-- Embedding of Settings.bytesize with an integer default:
ByteSizeSetting.set_value stores str(default). -/
def registerBytesize (st : SettingsState) (names : List String)
    (default : Nat) : SettingsState :=
  addSetting st (.bytesizeS names (pyStrOfNat default))

/-- Embedding of Settings.integer with an integer default:
IntegerSetting.set_value stores str(default). -/
def registerInteger (st : SettingsState) (names : List String)
    (default : Int) : SettingsState :=
  addSetting st (.integerS names (pyStrOfInt default))

/-- The store with no settings, before Settings.__init__ adds the
defaults. -/
def emptySettings : SettingsState :=
  ⟨[], [], [], none, [], []⟩

/-- Embedding of Settings.__init__ and _add_default_settings: the built-in
settings registered by every store, in registration order. -/
def settingsInit : SettingsState :=
  let st := emptySettings
  let st := registerString st ["output"] ""
  let st := registerString st ["log"] ""
  let st := registerChoice st ["log-level"]
    ["debug", "info", "warning", "error", "critical", "fatal"]
  let st := registerBytesize st ["log-max"] 0
  let st := registerInteger st ["log-keep"] 10
  let st := registerString st ["log-mode"] "0600"
  let st := registerChoice st ["dump-memory-profile"] ["simple", "none"]
  registerInteger st ["memory-dump-interval"] 300

/-- Resolve an alias name to the index of its setting object. -/
def resolveIdx (st : SettingsState) (name : String) : Option Nat :=
  st.settingses.lookup name

/-- The object a name resolves to, when the index is in range. -/
def objAt (st : SettingsState) (i : Nat) : Option SettingObj :=
  st.objects[i]?

/-- Embedding of Settings.__setitem__ for a StringList setting: the value
property assigns through StringListSetting.set_value, which installs the
list and clears the using-default flag.  Assignments to other variants
are outside the scope of the claims and leave the store unchanged here. -/
def setItemStringList (st : SettingsState) (name : String)
    (strings : List String) : SettingsState :=
  match resolveIdx st name with
  | some i =>
    match objAt st i with
    | some (.stringList names _ _) =>
      setObj st i (.stringList names strings false)
    | _ => st
  | none => st

/-! ## Config-file loading

Settings.load_configs reads each file of the config-file list with
ConfigParser and hands every option of the config section to
set_from_raw_string.  The embedding takes files in already-parsed form: a
file is an ordered list of key/value pairs of its config section plus the
data of its other sections (ConfigParser itself is an external library;
its key normalisation and interpolation happen before the code under
test runs).  The YAML branch of load_configs is not modelled; the
filesystem given to the embedded loader carries INI data only, and the
theorems below are stated over it. -/

/-- The parsed content of one INI config file. -/
structure IniData where
  config : List (String × String)
  others : List (String × List (String × String))
  deriving DecidableEq, Repr

/-- The message format of the UnknownConfigVariable exception. -/
def unknownMsg (filename name : String) : String :=
  filename ++ ": Unknown configuration variable " ++ name

/-- Embedding of Settings.set_from_raw_string followed by the
using-default reset of _read_ini: an undeclared name raises
UnknownConfigVariable, otherwise the setting parses the raw value. -/
def applyConfigPair (path : String) (st : SettingsState)
    (kv : String × String) : Except PyErr SettingsState :=
  match st.settingses.lookup kv.1 with
  | none => .error (.unknownConfigVariable (unknownMsg path kv.1))
  | some i =>
    match objAt st i with
    | none => .error .internalError
    | some obj => .ok (setObj st i (postIniFlag (parse_value obj kv.2)))

/-- The option loop of Settings._read_ini over the config section. -/
def applyConfigPairs (path : String) :
    SettingsState → List (String × String) → Except PyErr SettingsState
  | st, [] => .ok st
  | st, kv :: rest =>
    match applyConfigPair path st kv with
    | .error e => .error e
    | .ok st1 => applyConfigPairs path st1 rest

/-- The section merge of Settings._read_ini: options of each non-config
section are copied into the preserved extra config data. -/
def mergeSection (data : List (String × List (String × String)))
    (sec : String × List (String × String)) :
    List (String × List (String × String)) :=
  let cur := (data.lookup sec.1).getD []
  dictSet data sec.1 (sec.2.foldl (fun d kv => dictSet d kv.1 kv.2) cur)

/-- Embedding of Settings._read_ini for one parsed file. -/
def read_ini (st : SettingsState) (path : String) (file : IniData) :
    Except PyErr SettingsState :=
  match applyConfigPairs path st file.config with
  | .error e => .error e
  | .ok st1 =>
    .ok { st1 with allConfigData := file.others.foldl mergeSection st1.allConfigData }

/-- The file loop of Settings.load_configs: a file absent from the
filesystem raises IOError, which is swallowed unless the file was
required via the command line. -/
def loadConfigsGo (fs : List (String × IniData)) :
    SettingsState → List String → Except PyErr SettingsState
  | st, [] => .ok st
  | st, path :: rest =>
    match fs.lookup path with
    | none =>
      if st.requiredConfigFiles.contains path then .error (.ioError path)
      else loadConfigsGo fs st rest
    | some file =>
      match read_ini st path file with
      | .error e => .error e
      | .ok st1 => loadConfigsGo fs st1 rest

/-- Embedding of Settings.load_configs: the extra config data is reset,
the config-file list is materialised from the defaults when unset, and
each file in list order is read. -/
def load_configs (fs : List (String × IniData)) (defaults : List String)
    (st : SettingsState) : Except PyErr SettingsState :=
  let files := st.configFiles.getD defaults
  loadConfigsGo fs
    { st with allConfigData := [], configFiles := some files } files

/-! ## Command-line parsing

Settings.parse_args builds an optparse parser whose per-setting options
all share the set_value callback of build_parser, optionally wrapped by
the maybe helper that suppresses every setting callback in configs_only
mode; the config-file options (--config, --no-default-configs) are never
wrapped.  The tokeniser of optparse is an external library; the
embedding works on the stream of recognised option occurrences it
produces.  Validation that optparse performs before invoking a callback
is part of the event step: membership of the choice set for type choice
options and int conversion for type int options (the radix-prefix forms
optparse also accepts for int are outside the claims and not modelled). -/

/-- One recognised option occurrence on the command line. -/
inductive CliEvent where
  | setOpt (name value : String)
  | boolOpt (name : String)
  | noBoolOpt (name : String)
  | configOpt (file : String)
  | noDefaultConfigs
  deriving DecidableEq, Repr

/-- The value-carrying callback step of build_parser.set_value for one
setting object, after optparse validation has passed. -/
def cliSetValue (obj : SettingObj) (value : String) : SettingObj :=
  match obj with
  | .stringList names strings usingDefault =>
    if usingDefault then .stringList names [value] false
    else .stringList names (strings ++ [value]) false
  | .stringS names _ => .stringS names (some value)
  | .choiceS names choices _ => .choiceS names choices value
  | .bytesizeS names _ => .bytesizeS names (pyStrOfNat (parse_human_size value))
  | .integerS names _ => .integerS names value
  | .booleanS names v => .booleanS names v

/-- Process one option occurrence against the store.  In configs_only
mode every setting callback is replaced by a no-op (the maybe wrapper of
build_parser) while the two config-file callbacks still run; optparse
validation precedes the callback in both modes. -/
def processEvent (configsOnly : Bool) (defaults : List String)
    (st : SettingsState) (ev : CliEvent) : Except PyErr SettingsState :=
  match ev with
  | .setOpt name value =>
    match resolveIdx st name with
    | none => .error .unknownOption
    | some i =>
      match objAt st i with
      | none => .error .internalError
      | some obj =>
        match obj with
        | .booleanS _ _ => .error .internalError
        | .choiceS _ choices _ =>
          if choices.contains value then
            if configsOnly then .ok st else .ok (setObj st i (cliSetValue obj value))
          else .error .optparseBadChoice
        | .integerS names _ =>
          match pyIntOfString value with
          | none => .error .optparseBadInt
          | some z =>
            if configsOnly then .ok st
            else .ok (setObj st i (.integerS names (pyStrOfInt z)))
        | _ =>
          if configsOnly then .ok st else .ok (setObj st i (cliSetValue obj value))
  | .boolOpt name =>
    match resolveIdx st name with
    | none => .error .unknownOption
    | some i =>
      match objAt st i with
      | some (.booleanS names _) =>
        if configsOnly then .ok st else .ok (setObj st i (.booleanS names "yes"))
      | _ => .error .internalError
  | .noBoolOpt name =>
    match resolveIdx st name with
    | none => .error .unknownOption
    | some i =>
      match objAt st i with
      | some (.booleanS names _) =>
        if configsOnly then .ok st else .ok (setObj st i (.booleanS names "no"))
      | _ => .error .internalError
  | .configOpt file =>
    .ok { st with
      configFiles := some (st.configFiles.getD defaults ++ [file])
      requiredConfigFiles := st.requiredConfigFiles ++ [file] }
  | .noDefaultConfigs =>
    .ok { st with configFiles := some [], requiredConfigFiles := [] }

/-- Run the option occurrences left to right, stopping at the first
parse error while keeping the store state reached so far. -/
def processEvents (configsOnly : Bool) (defaults : List String) :
    SettingsState → List CliEvent → SettingsState × Option PyErr
  | st, [] => (st, none)
  | st, ev :: rest =>
    match processEvent configsOnly defaults st ev with
    | .ok st1 => processEvents configsOnly defaults st1 rest
    | .error e => (st, some e)

/-- Embedding of Settings.parse_args: on a parse error optparse exits the
process, with status one when suppress_errors replaced parser.error and
with the optparse default status two otherwise.  The result pairs the
store state at exit with the exit status, none meaning a normal return. -/
def parse_args (suppressErrors configsOnly : Bool) (defaults : List String)
    (st : SettingsState) (events : List CliEvent) :
    SettingsState × Option Nat :=
  let r := processEvents configsOnly defaults st events
  (r.1, r.2.map (fun _ => if suppressErrors then 1 else 2))

/-- The effect of one option occurrence on the config-file lists alone:
the changes the two unwrapped callbacks of build_parser make.  Used to
state the frame property of the configs_only pass. -/
def configListStep (defaults : List String)
    (p : Option (List String) × List String) (ev : CliEvent) :
    Option (List String) × List String :=
  match ev with
  | .configOpt file => (some (p.1.getD defaults ++ [file]), p.2 ++ [file])
  | .noDefaultConfigs => (some [], [])
  | _ => p

/-- The encode/decode chain of the ByteSize round-trip claim:
set_value with a non-negative integer stores str(n); parse_value on the
stored string runs parse_human_size and stores str() of the result;
get_value converts the stored string back with int(). -/
def byteSizeRoundTrip (n : Nat) : Option Int :=
  let stored := pyStrOfNat n
  let stored2 := pyStrOfNat (parse_human_size stored)
  pyIntOfString stored2

/-! ## Helper lemmas: digit characters and decimal strings -/

theorem isAsciiDigit_decDigitChar {n : Nat} (h : n < 10) :
    isAsciiDigit (decDigitChar n) = true := by
  interval_cases n <;> decide

theorem digitVal_decDigitChar {n : Nat} (h : n < 10) :
    digitVal (decDigitChar n) = n := by
  interval_cases n <;> decide

theorem digit_toNat {c : Char} (h : isAsciiDigit c = true) :
    48 ≤ c.toNat ∧ c.toNat ≤ 57 := by
  simpa [isAsciiDigit, Bool.and_eq_true, decide_eq_true_eq] using h

theorem digit_ne {c : Char} (h : isAsciiDigit c = true) (d : Char)
    (hd : isAsciiDigit d = false) : c ≠ d := by
  intro he
  subst he
  rw [h] at hd
  cases hd

theorem asciiLowerChar_digit {c : Char} (h : isAsciiDigit c = true) :
    asciiLowerChar c = c := by
  have hb := digit_toNat h
  have hcond : (65 ≤ c.toNat && c.toNat ≤ 90) = false := by
    simp only [Bool.and_eq_false_iff, decide_eq_false_iff_not]
    omega
  simp [asciiLowerChar, hcond]

theorem isPyWs_digit {c : Char} (h : isAsciiDigit c = true) :
    isPyWs c = false := by
  have hb := digit_toNat h
  simp only [isPyWs, Bool.or_eq_false_iff, decide_eq_false_iff_not]
  omega

theorem dropWhile_eq_self_of_all {p : Char → Bool} :
    ∀ l : List Char, (∀ c ∈ l, p c = false) → l.dropWhile p = l
  | [], _ => rfl
  | c :: t, h => by simp [List.dropWhile, h c (by simp)]

theorem stripWhile_eq_self {p : Char → Bool} {l : List Char}
    (h : ∀ c ∈ l, p c = false) : stripWhile p l = l := by
  unfold stripWhile
  rw [dropWhile_eq_self_of_all l h,
    dropWhile_eq_self_of_all _ (by intro c hc; exact h c (List.mem_reverse.mp hc)),
    List.reverse_reverse]

theorem decval_append_one (xs : List Char) (c : Char) :
    decval (xs ++ [c]) = 10 * decval xs + digitVal c := by
  simp [decval, List.foldl_append]

theorem pyDigitsAux_spec :
    ∀ fuel n, n < fuel →
      pyDigitsAux fuel n ≠ [] ∧
      (∀ c ∈ pyDigitsAux fuel n, isAsciiDigit c = true) ∧
      decval (pyDigitsAux fuel n) = n := by
  intro fuel
  induction fuel with
  | zero => intro n h; omega
  | succ f ih =>
    intro n h
    by_cases hn : n < 10
    · simp only [pyDigitsAux, if_pos hn]
      refine ⟨by simp, ?_, ?_⟩
      · intro c hc
        rw [List.mem_singleton] at hc
        subst hc
        exact isAsciiDigit_decDigitChar hn
      · simp [decval, digitVal_decDigitChar hn]
    · have h10 : 10 ≤ n := by omega
      have hdiv : n / 10 < n := Nat.div_lt_self (by omega) (by omega)
      have hfuel : n / 10 < f := by omega
      obtain ⟨hne, hall, hval⟩ := ih (n / 10) hfuel
      simp only [pyDigitsAux, if_neg hn]
      refine ⟨by simp, ?_, ?_⟩
      · intro c hc
        rcases List.mem_append.mp hc with hc1 | hc2
        · exact hall c hc1
        · rw [List.mem_singleton] at hc2
          subst hc2
          exact isAsciiDigit_decDigitChar (Nat.mod_lt _ (by omega))
      · rw [decval_append_one, hval, digitVal_decDigitChar (Nat.mod_lt _ (by omega))]
        omega

theorem pyStrOfNat_data (n : Nat) :
    (pyStrOfNat n).data = pyDigitsAux (n + 1) n := rfl

theorem mem_of_getLast? :
    ∀ {l : List Char} {a : Char}, l.getLast? = some a → a ∈ l := by
  intro l
  induction l with
  | nil => intro a h; cases h
  | cons c t ih =>
    intro a h
    cases t with
    | nil =>
      simp only [List.getLast?_singleton, Option.some.injEq] at h
      simp [h]
    | cons d t2 =>
      rw [List.getLast?_cons_cons] at h
      exact List.mem_cons_of_mem _ (ih h)

theorem filter_eq_self_of_all {p : Char → Bool} :
    ∀ l : List Char, (∀ c ∈ l, p c = true) → l.filter p = l
  | [], _ => rfl
  | c :: t, h => by
    simp only [List.filter, h c (by simp)]
    exact congrArg (c :: ·) (filter_eq_self_of_all t (fun d hd => h d (by simp [hd])))

theorem parseDigitGroup_digits (cs : List Char) (h1 : cs ≠ [])
    (h2 : ∀ c ∈ cs, isAsciiDigit c = true) :
    parseDigitGroup cs = some (decval cs) := by
  have hok : okDigitGroup cs = true := by
    unfold okDigitGroup
    simp only [Bool.and_eq_true]
    refine ⟨⟨⟨⟨?_, ?_⟩, ?_⟩, ?_⟩, ?_⟩
    · cases cs with
      | nil => exact absurd rfl h1
      | cons c t => simp
    · rw [List.all_eq_true]
      intro c hc
      simp [h2 c hc]
    · cases cs with
      | nil => exact absurd rfl h1
      | cons c t =>
        have := digit_ne (h2 c (by simp)) '_' (by decide)
        simp [this]
    · rcases hl : cs.getLast? with _ | a
      · simp
      · have := digit_ne (h2 a (mem_of_getLast? hl)) '_' (by decide)
        simp [this]
    · rw [List.all_eq_true]
      intro p hp
      have hmem := (List.of_mem_zip hp).1
      have := digit_ne (h2 p.1 hmem) '_' (by decide)
      simp [this]
  rw [parseDigitGroup, if_pos hok, filter_eq_self_of_all cs h2]

theorem pyIntOfString_digits (cs : List Char) (h1 : cs ≠ [])
    (h2 : ∀ c ∈ cs, isAsciiDigit c = true) :
    pyIntOfString ⟨cs⟩ = some ((decval cs : Nat) : Int) := by
  have hdata : (⟨cs⟩ : String).data = cs := rfl
  have hstrip : stripWhile isPyWs cs = cs :=
    stripWhile_eq_self (fun c hc => isPyWs_digit (h2 c hc))
  unfold pyIntOfString
  rw [hdata, hstrip]
  cases cs with
  | nil => exact absurd rfl h1
  | cons c t =>
    have hplus : c ≠ '+' := digit_ne (h2 c (by simp)) '+' (by decide)
    have hminus : c ≠ '-' := digit_ne (h2 c (by simp)) '-' (by decide)
    rw [if_neg (by simp [hplus]), if_neg (by simp [hminus]),
      parseDigitGroup_digits _ h1 h2]
    rfl

theorem pyIntOfString_pyStrOfNat (n : Nat) :
    pyIntOfString (pyStrOfNat n) = some (n : Int) := by
  obtain ⟨hne, hall, hval⟩ := pyDigitsAux_spec (n + 1) n (by omega)
  have : pyStrOfNat n = ⟨pyDigitsAux (n + 1) n⟩ := rfl
  rw [this, pyIntOfString_digits _ hne hall, hval]

/-! ## Helper lemmas: the binary64 model on exactly representable inputs -/

theorem natLog2Go_spec :
    ∀ fuel n, 1 ≤ n → n ≤ fuel →
      2 ^ natLog2Go fuel n ≤ n ∧ n < 2 ^ (natLog2Go fuel n + 1) := by
  intro fuel
  induction fuel with
  | zero => intro n h1 h2; omega
  | succ f ih =>
    intro n h1 h2
    by_cases hn : n < 2
    · simp only [natLog2Go, if_pos hn]
      simp
      omega
    · have hdiv : 1 ≤ n / 2 := by omega
      have hlt : n / 2 < n := Nat.div_lt_self (by omega) (by omega)
      obtain ⟨ha, hb⟩ := ih (n / 2) hdiv (by omega)
      simp only [natLog2Go, if_neg hn]
      constructor
      · calc 2 ^ (natLog2Go f (n / 2) + 1) = 2 ^ natLog2Go f (n / 2) * 2 := by ring
        _ ≤ n / 2 * 2 := by omega
        _ ≤ n := by omega
      · calc n < n / 2 * 2 + 2 := by omega
        _ ≤ 2 ^ (natLog2Go f (n / 2) + 1) * 2 := by omega
        _ = 2 ^ (natLog2Go f (n / 2) + 1 + 1) := by ring

theorem natLog2_spec {n : Nat} (h : 1 ≤ n) :
    2 ^ natLog2 n ≤ n ∧ n < 2 ^ (natLog2 n + 1) :=
  natLog2Go_spec n n h (Nat.le_refl n)

theorem natLog2_le_of_le {n k : Nat} (h1 : 1 ≤ n) (h : n ≤ 2 ^ k) :
    natLog2 n ≤ k := by
  obtain ⟨ha, _⟩ := natLog2_spec h1
  by_contra hgt
  have : 2 ^ (k + 1) ≤ 2 ^ natLog2 n :=
    Nat.pow_le_pow_right (by omega) (by omega)
  have : 2 ^ k < 2 ^ (k + 1) := Nat.pow_lt_pow_right (by omega) (by omega)
  omega

theorem natLog2_lt_of_lt {n k : Nat} (h1 : 1 ≤ n) (h : n < 2 ^ k) :
    natLog2 n < k := by
  obtain ⟨ha, _⟩ := natLog2_spec h1
  by_contra hge
  push_neg at hge
  have : 2 ^ k ≤ 2 ^ natLog2 n := Nat.pow_le_pow_right (by omega) hge
  omega

/-- Exact rounding: roundRat on an integer below the 53-bit threshold is
the scaled identity. -/
theorem roundRat_exact_small {n : Nat} (h1 : 1 ≤ n) (h2 : n < 2 ^ 53) :
    roundRat n 1 = ⟨n * 2 ^ (52 - natLog2 n), (natLog2 n : Int) - 52⟩ := by
  have hL : natLog2 n ≤ 52 := by
    have := natLog2_lt_of_lt h1 h2
    omega
  have hn0 : ¬(n = 0) := by omega
  have hshift : (0 : Int) ≤ 52 - (natLog2 n : Int) := by omega
  have htn : ((52 : Int) - (natLog2 n : Int)).toNat = 52 - natLog2 n := by omega
  simp only [roundRat, ratLog2, if_neg hn0, if_pos h1, Nat.div_one,
    if_pos hshift, htn]
  simp [Nat.mod_one]

/-- Exact rounding of an already-scaled exact mantissa: rounding changes
nothing when the value is an integer below the 53-bit threshold. -/
theorem roundRat_exact_scaled {n : Nat} (h1 : 1 ≤ n) (hL : natLog2 n ≤ 52) :
    roundRat (n * 2 ^ (52 - natLog2 n)) (2 ^ (52 - natLog2 n)) =
      ⟨n * 2 ^ (52 - natLog2 n), (natLog2 n : Int) - 52⟩ := by
  set s := 52 - natLog2 n with hs
  have hpos : 0 < 2 ^ s := Nat.pos_pow_of_pos s (by omega)
  have hnum0 : ¬(n * 2 ^ s = 0) :=
    Nat.mul_ne_zero (by omega) (by omega)
  have hden : 2 ^ s ≤ n * 2 ^ s := Nat.le_mul_of_pos_left _ (by omega)
  have hdiv : n * 2 ^ s / 2 ^ s = n := Nat.mul_div_cancel n hpos
  have hdiv2 : n * 2 ^ s * 2 ^ s / 2 ^ s = n * 2 ^ s :=
    Nat.mul_div_cancel (n * 2 ^ s) hpos
  have hmod : n * 2 ^ s * 2 ^ s % 2 ^ s = 0 := Nat.mul_mod_left (n * 2 ^ s) (2 ^ s)
  have hshift2 : (0 : Int) ≤ 52 - (natLog2 n : Int) := by omega
  have htn : ((52 : Int) - (natLog2 n : Int)).toNat = s := by omega
  simp only [roundRat, ratLog2, if_neg hnum0, if_pos hden, hdiv,
    if_pos hshift2, htn, hdiv2, hmod]
  simp
  omega

/-- The full rounding pipeline of parse_human_size with unit multiplier
one is the identity on integers up to two to the fifty-third power. -/
theorem floatPipeline_exact {n : Nat} (h2 : n ≤ 2 ^ 53) :
    dyTrunc (floatMulNat (roundRat n 1) 1) = n := by
  rcases Nat.eq_zero_or_pos n with h0 | h1
  · subst h0
    decide
  by_cases h53 : n = 2 ^ 53
  · subst h53
    decide
  have hlt : n < 2 ^ 53 := by omega
  have hL : natLog2 n ≤ 52 := by
    have := natLog2_lt_of_lt h1 hlt
    omega
  rw [roundRat_exact_small h1 hlt]
  by_cases hL52 : natLog2 n = 52
  · have he : ((natLog2 n : Int) - 52) = 0 := by omega
    have hs0 : 52 - natLog2 n = 0 := by omega
    simp only [floatMulNat, he, hs0, pow_zero, mul_one, Int.toNat_zero,
      if_pos (le_refl (0 : Int))]
    rw [roundRat_exact_small h1 hlt]
    simp only [dyTrunc, hs0, he, pow_zero, mul_one, Int.toNat_zero,
      if_pos (le_refl (0 : Int))]
  · have he : ¬((0 : Int) ≤ (natLog2 n : Int) - 52) := by omega
    have htn2 : (-((natLog2 n : Int) - 52)).toNat = 52 - natLog2 n := by omega
    simp only [floatMulNat, if_neg he, htn2, mul_one]
    rw [roundRat_exact_scaled h1 hL]
    simp only [dyTrunc, if_neg he, htn2]
    exact Nat.mul_div_cancel n (Nat.pos_pow_of_pos _ (by omega))

theorem takeWhile_eq_self_of_all {p : Char → Bool} :
    ∀ l : List Char, (∀ c ∈ l, p c = true) → l.takeWhile p = l
  | [], _ => rfl
  | c :: t, h => by
    simp only [List.takeWhile, h c (by simp)]
    exact congrArg (c :: ·) (takeWhile_eq_self_of_all t (fun d hd => h d (by simp [hd])))

theorem dropWhile_eq_nil_of_all {p : Char → Bool} :
    ∀ l : List Char, (∀ c ∈ l, p c = true) → l.dropWhile p = []
  | [], _ => rfl
  | c :: t, h => by
    simp only [List.dropWhile, h c (by simp)]
    exact dropWhile_eq_nil_of_all t (fun d hd => h d (by simp [hd]))

theorem map_eq_self_of_all {f : Char → Char} :
    ∀ l : List Char, (∀ c ∈ l, f c = c) → l.map f = l
  | [], _ => rfl
  | c :: t, h => by
    rw [List.map_cons, h c (by simp),
      map_eq_self_of_all t (fun d hd => h d (by simp [hd]))]

theorem matchSize_digits (cs : List Char) (h1 : cs ≠ [])
    (h2 : ∀ c ∈ cs, isAsciiDigit c = true) :
    matchSize cs = some (cs, [], 1) := by
  have htake : cs.takeWhile isAsciiDigit = cs := takeWhile_eq_self_of_all cs h2
  have hdrop : cs.dropWhile isAsciiDigit = [] := dropWhile_eq_nil_of_all cs h2
  have hemp : cs.isEmpty = false := by
    cases cs with
    | nil => exact absurd rfl h1
    | cons c t => rfl
  simp only [matchSize, htake, hdrop, hemp, Bool.false_eq_true, if_false]
  rfl

theorem parse_human_size_pyStrOfNat {n : Nat} (h : n ≤ 2 ^ 53) :
    parse_human_size (pyStrOfNat n) = n := by
  obtain ⟨hne, hall, hval⟩ := pyDigitsAux_spec (n + 1) n (by omega)
  have hlower : (asciiLower (pyStrOfNat n)).data = pyDigitsAux (n + 1) n := by
    show (pyDigitsAux (n + 1) n).map asciiLowerChar = pyDigitsAux (n + 1) n
    exact map_eq_self_of_all _ (fun c hc => asciiLowerChar_digit (hall c hc))
  unfold parse_human_size
  rw [hlower, matchSize_digits _ hne hall]
  show dyTrunc (floatMulNat
    (roundRat (decval (pyDigitsAux (n + 1) n) * 10 ^ List.length [] +
      decval []) (10 ^ List.length [])) 1) = n
  simp only [List.length_nil, pow_zero, mul_one, hval]
  show dyTrunc (floatMulNat (roundRat (n + decval []) 1) 1) = n
  show dyTrunc (floatMulNat (roundRat (n + 0) 1) 1) = n
  rw [Nat.add_zero]
  exact floatPipeline_exact h

/-! ## Claim C1: the ByteSize encode/decode round-trip -/

/-- Claim C1, counterexample: the round-trip is not the identity on every
non-negative integer.  Storing 2 ^ 53 + 1 through ByteSizeSetting.set_value
and decoding the stored string yields 2 ^ 53, because parse_human_size
converts the matched number with float() and 2 ^ 53 + 1 is not exactly
representable in binary64 (it rounds to even). -/
theorem C1_counterexample :
    byteSizeRoundTrip 9007199254740993 = some 9007199254740992 ∧
      (9007199254740992 : Int) ≠ 9007199254740993 := by
  constructor
  · decide
  · decide

/-- Claim C1, amended: for every ByteSize setting, encoding a
non-negative integer n via set_value and decoding the stored string via
parse_value followed by get_value yields n again, provided n is at most
2 ^ 53 (equivalently, n is exactly representable in binary64); beyond
that the float() conversion inside parse_human_size rounds. -/
theorem C1_bytesize_roundtrip :
    ∀ n : Nat, n ≤ 2 ^ 53 → byteSizeRoundTrip n = some (n : Int) := by
  intro n h
  show pyIntOfString (pyStrOfNat (parse_human_size (pyStrOfNat n))) = some (n : Int)
  rw [parse_human_size_pyStrOfNat h, pyIntOfString_pyStrOfNat]

/-- Witness for C1_bytesize_roundtrip at a concrete input. -/
theorem C1_bytesize_roundtrip_witness :
    byteSizeRoundTrip 123456 = some (123456 : Int) :=
  C1_bytesize_roundtrip 123456 (by norm_num)

/-! ## Claim C9: IntegerSetting defers validation to read time -/

/-- Claim C9: for an Integer setting, parse_value (assignment through
set_value, which stores str of its argument) accepts any string, and the
conversion failure surfaces only when get_value runs int() on the stored
string: get_value raises ValueError exactly when the string is not a
valid integer literal, and returns the converted integer otherwise. -/
theorem C9_integer_late_failure :
    ∀ (names : List String) (v0 s : String),
      parse_value (.integerS names v0) s = .integerS names s ∧
      (pyIntOfString s = none →
        get_value (.integerS names s) = .error .valueError) ∧
      (∀ z : Int, pyIntOfString s = some z →
        get_value (.integerS names s) = .ok (.pyInt z)) := by
  intro names v0 s
  refine ⟨rfl, ?_, ?_⟩
  · intro h
    simp [get_value, h]
  · intro z h
    simp [get_value, h]

/-- Witness for C9_integer_late_failure: assigning the non-numeric string
abc succeeds and the stored value then fails int() conversion at read
time. -/
theorem C9_integer_late_failure_witness :
    parse_value (.integerS ["num"] "0") "abc" = .integerS ["num"] "abc" ∧
      get_value (.integerS ["num"] "abc") = .error .valueError :=
  ⟨(C9_integer_late_failure ["num"] "0" "abc").1,
    (C9_integer_late_failure ["num"] "0" "abc").2.1 (by decide)⟩

/-! ## Claim C2: the has_value contract -/

/-- Claim C2, counterexample: a String setting whose value is the empty
string has has_value true, not false as the claim states, because the
base Setting.has_value only compares the value against None.  The store
shown is settingsInit after declaring a string setting with the default
empty value; its object is at index eight. -/
theorem C2_counterexample :
    objAt (registerString settingsInit ["foo"] "") 8 =
        some (.stringS ["foo"] (some "")) ∧
      has_value (.stringS ["foo"] (some "")) = .ok true := by
  constructor
  · decide
  · rfl

/-- Claim C2, amended: has_value is true exactly when the value is not
None for a String setting (so an empty string still counts as a value),
while the StringList override is true exactly when the list is
non-empty. -/
theorem C2_has_value :
    ∀ (names : List String) (v : Option String) (l : List String) (ud : Bool),
      (has_value (.stringS names v) = .ok true ↔ v ≠ none) ∧
      has_value (.stringS names (some "")) = .ok true ∧
      (has_value (.stringList names l ud) = .ok true ↔ l ≠ []) := by
  intro names v l ud
  refine ⟨?_, by simp [has_value], ?_⟩
  · cases v <;> simp [has_value]
  · simp [has_value]

/-! ## Claim C10: the StringList field parser -/

theorem stripWhile_eq_rdrop (p : Char → Bool) (l : List Char) :
    stripWhile p l = List.rdropWhile p (l.dropWhile p) := rfl

theorem dropWhile_rdropWhile_fixed {p : Char → Bool} {x : List Char}
    (hxfix : List.dropWhile p x = x) :
    List.dropWhile p (List.rdropWhile p x) = List.rdropWhile p x := by
  rcases hrd : List.rdropWhile p x with _ | ⟨c, r⟩
  · rfl
  · obtain ⟨t, ht⟩ := List.rdropWhile_prefix p x
    rw [hrd] at ht
    have hx : x = c :: (r ++ t) := ht.symm
    have hpc : p c = false := by
      cases hval : p c
      · rfl
      · exfalso
        have hdx : List.dropWhile p x = List.dropWhile p (r ++ t) := by
          rw [hx]
          simp [List.dropWhile, hval]
        rw [hxfix, hx] at hdx
        have hle : (List.dropWhile p (r ++ t)).length ≤ (r ++ t).length :=
          (List.dropWhile_suffix p).length_le
        have hlen := congrArg List.length hdx
        simp at hlen hle
        omega
    simp [List.dropWhile, hpc]

theorem stripWhile_idem (p : Char → Bool) (l : List Char) :
    stripWhile p (stripWhile p l) = stripWhile p l := by
  rw [stripWhile_eq_rdrop, stripWhile_eq_rdrop,
    dropWhile_rdropWhile_fixed (List.dropWhile_idempotent p l),
    List.rdropWhile_idempotent]

theorem mem_of_mem_stripWhile {p : Char → Bool} {c : Char} {l : List Char}
    (h : c ∈ stripWhile p l) : c ∈ l := by
  rw [stripWhile_eq_rdrop] at h
  obtain ⟨t, ht⟩ := List.rdropWhile_prefix p (l.dropWhile p)
  have h2 : c ∈ l.dropWhile p := by
    rw [← ht]
    exact List.mem_append_left t h
  exact (List.dropWhile_suffix p).subset h2

theorem slLoop_no_quote :
    ∀ (cs value : List Char) (inq : Bool), (∀ c ∈ value, c ≠ '"') →
      ∀ v ∈ slLoop cs value inq, ∀ c ∈ v, c ≠ '"' := by
  intro cs
  induction cs with
  | nil =>
    intro value inq hv v hvmem
    unfold slLoop at hvmem
    by_cases h : value.isEmpty
    · rw [if_pos h] at hvmem
      cases hvmem
    · rw [if_neg h] at hvmem
      rw [List.mem_singleton] at hvmem
      subst hvmem
      exact hv
  | cons c rest ih =>
    intro value inq hv v hvmem
    unfold slLoop at hvmem
    by_cases hq : c = '"'
    · rw [if_pos hq] at hvmem
      exact ih value (!inq) hv v hvmem
    · rw [if_neg hq] at hvmem
      by_cases hcomma : c = ',' ∧ inq = false
      · rw [if_pos hcomma] at hvmem
        rcases List.mem_cons.mp hvmem with rfl | hm
        · exact hv
        · exact ih [] inq (by simp) v hm
      · rw [if_neg hcomma] at hvmem
        refine ih (value ++ [c]) inq ?_ v hvmem
        intro d hd
        rcases List.mem_append.mp hd with h1 | h2
        · exact hv d h1
        · rw [List.mem_singleton] at h2
          subst h2
          exact hq

/-- Claim C10: StringListSetting.parse_value removes every double-quote
character and strips surrounding whitespace from each field (each output
field is already stripped), keeps leading and interior empty fields, and
drops a trailing empty field, as witnessed by the three quoted examples. -/
theorem C10_string_list_fields :
    (∀ s : String, ∀ v ∈ string_list_parse s,
      (∀ c ∈ v.data, c ≠ '"') ∧ pyStrip v = v) ∧
    string_list_parse "a," = ["a"] ∧
    string_list_parse "a,,b" = ["a", "", "b"] ∧
    string_list_parse ",a" = ["", "a"] := by
  refine ⟨?_, by decide, by decide, by decide⟩
  intro s v hv
  obtain ⟨w, hw, rfl⟩ := List.mem_map.mp hv
  constructor
  · intro c hc
    have hcw : c ∈ w := mem_of_mem_stripWhile hc
    exact slLoop_no_quote s.data [] false (by simp) w hw c hcw
  · show (⟨stripWhile isPyWs (stripWhile isPyWs w)⟩ : String) =
      ⟨stripWhile isPyWs w⟩
    rw [stripWhile_idem]

/-- Witness for C10_string_list_fields: the field a of the parse of the
string comma-a is already stripped. -/
theorem C10_string_list_fields_witness : pyStrip "a" = "a" :=
  ((C10_string_list_fields.1 ",a" "a") (by decide)).2

/-! ## Claim C3: StringList accumulation on the command line -/

theorem cliStringList_append (names : List String) :
    ∀ (vs l : List String),
      vs.foldl cliSetValue (.stringList names l false) =
        .stringList names (l ++ vs) false
  | [], l => by simp
  | v :: vs, l => by
    show (vs.foldl cliSetValue (cliSetValue (.stringList names l false) v)) = _
    show (vs.foldl cliSetValue (.stringList names (l ++ [v]) false)) = _
    rw [cliStringList_append names vs (l ++ [v])]
    simp

/-- Claim C3, counterexample: values assigned programmatically before
parsing are merged with command-line values, not replaced by them.
Registering a StringList setting foo, assigning the list with the single
element x programmatically (which clears the using-default flag), and
then parsing one occurrence of the option with value a leaves foo at the
two-element list x, a; the claim predicted the one-element list a. -/
theorem C3_counterexample :
    objAt (processEvents false []
        (setItemStringList (registerStringList settingsInit ["foo"] [])
          "foo" ["x"])
        [.setOpt "foo" "a"]).1 8 =
      some (.stringList ["foo"] ["x", "a"] false) ∧
    (["x", "a"] : List String) ≠ ["a"] := by
  constructor
  · decide
  · decide

/-- Claim C3, amended: command-line occurrences of a StringList option
accumulate in the order given; the first occurrence replaces the current
value only while the setting is still flagged as using its default (the
declared default, or a config-file value, both of which set the flag),
and any value whose assignment cleared the flag, such as a programmatic
assignment made before parsing, is appended to rather than replaced. -/
theorem C3_cli_accumulation :
    (∀ (names d vs : List String) (v : String),
      (v :: vs).foldl cliSetValue (.stringList names d true) =
        .stringList names (v :: vs) false) ∧
    (∀ (names l vs : List String),
      vs.foldl cliSetValue (.stringList names l false) =
        .stringList names (l ++ vs) false) ∧
    objAt (processEvents false [] (registerStringList settingsInit ["foo"] [])
        [.setOpt "foo" "a", .setOpt "foo" "b"]).1 8 =
      some (.stringList ["foo"] ["a", "b"] false) := by
  refine ⟨?_, ?_, by decide⟩
  · intro names d vs v
    show vs.foldl cliSetValue (cliSetValue (.stringList names d true) v) = _
    show vs.foldl cliSetValue (.stringList names [v] false) = _
    rw [cliStringList_append]
    rfl
  · intro names l vs
    exact cliStringList_append names vs l

/-! ## Claim C4: alias registration rebinds silently -/

theorem dictSet_lookup_self {α : Type} :
    ∀ (d : List (String × α)) (k : String) (v : α),
      (dictSet d k v).lookup k = some v
  | [], k, v => by simp [dictSet, List.lookup]
  | (k1, v1) :: rest, k, v => by
    by_cases h : k1 = k
    · subst h
      simp [dictSet, List.lookup]
    · have hb : (k == k1) = false :=
        beq_eq_false_iff_ne.mpr (fun he => h he.symm)
      simp only [dictSet, if_neg h, List.lookup, hb]
      exact dictSet_lookup_self rest k v

theorem dictSet_lookup_ne {α : Type} {k2 k : String} (hne : k2 ≠ k) :
    ∀ (d : List (String × α)) (v : α),
      (dictSet d k v).lookup k2 = d.lookup k2
  | [], v => by
    have hb : (k2 == k) = false := beq_eq_false_iff_ne.mpr hne
    simp [dictSet, List.lookup, hb]
  | (k1, v1) :: rest, v => by
    by_cases h : k1 = k
    · subst h
      have hb : (k2 == k1) = false := beq_eq_false_iff_ne.mpr hne
      simp [dictSet, List.lookup, hb]
    · simp only [dictSet, if_neg h, List.lookup]
      cases hb : k2 == k1 with
      | true => rfl
      | false => exact dictSet_lookup_ne hne rest v

theorem lookup_foldDict_notmem :
    ∀ (names : List String) (d : List (String × Nat)) (i : Nat)
      (name : String), name ∉ names →
      (names.foldl (fun d n => dictSet d n i) d).lookup name = d.lookup name
  | [], d, i, name, _ => rfl
  | n :: rest, d, i, name, h => by
    have h1 : name ≠ n := fun he => h (he ▸ List.mem_cons_self n rest)
    have h2 : name ∉ rest := fun he => h (List.mem_cons_of_mem n he)
    show (rest.foldl (fun d n => dictSet d n i) (dictSet d n i)).lookup name = _
    rw [lookup_foldDict_notmem rest (dictSet d n i) i name h2,
      dictSet_lookup_ne h1]

theorem lookup_foldDict_mem :
    ∀ (names : List String) (d : List (String × Nat)) (i : Nat)
      (name : String), name ∈ names →
      (names.foldl (fun d n => dictSet d n i) d).lookup name = some i
  | [], _, _, name, h => absurd h (List.not_mem_nil name)
  | n :: rest, d, i, name, h => by
    show (rest.foldl (fun d n => dictSet d n i) (dictSet d n i)).lookup name = _
    by_cases hr : name ∈ rest
    · exact lookup_foldDict_mem rest (dictSet d n i) i name hr
    · have hn : name = n := by
        rcases List.mem_cons.mp h with he | he
        · exact he
        · exact absurd he hr
      subst hn
      rw [lookup_foldDict_notmem rest _ i name hr, dictSet_lookup_self]

/-- Claim C4, counterexample: registering a second setting whose alias
list reuses the alias foo of an already-registered setting does not
fail; it silently rebinds foo to the new setting (index nine) while the
old object (index eight) remains in the store and the canonical-name
list gains a duplicate entry. -/
theorem C4_counterexample :
    resolveIdx (registerInteger (registerString settingsInit ["foo"] "")
        ["foo"] 0) "foo" = some 9 ∧
    objAt (registerInteger (registerString settingsInit ["foo"] "")
        ["foo"] 0) 9 = some (.integerS ["foo"] "0") ∧
    objAt (registerInteger (registerString settingsInit ["foo"] "")
        ["foo"] 0) 8 = some (.stringS ["foo"] (some "")) ∧
    (registerInteger (registerString settingsInit ["foo"] "")
        ["foo"] 0).canonicalNames.count "foo" = 2 := by
  refine ⟨by decide, by decide, by decide, by decide⟩

/-- Claim C4, amended: each alias name maps to exactly one setting,
namely the most recently registered setting that lists it; registering a
new setting rebinds every alias in its name list to the new setting
object without failing, and leaves the binding of every other alias
unchanged. -/
theorem C4_alias_rebinding :
    ∀ (st : SettingsState) (obj : SettingObj) (name : String),
      (name ∈ obj.names →
        resolveIdx (addSetting st obj) name = some st.objects.length) ∧
      (name ∉ obj.names →
        resolveIdx (addSetting st obj) name = resolveIdx st name) := by
  intro st obj name
  constructor
  · intro h
    exact lookup_foldDict_mem obj.names st.settingses st.objects.length name h
  · intro h
    exact lookup_foldDict_notmem obj.names st.settingses st.objects.length name h

/-- Witness for C4_alias_rebinding: registering a setting with aliases
foo and f on the empty store binds f to the new object at index zero. -/
theorem C4_alias_rebinding_witness :
    resolveIdx (addSetting emptySettings (.stringS ["foo", "f"] (some "")))
        "f" = some 0 :=
  (C4_alias_rebinding emptySettings (.stringS ["foo", "f"] (some "")) "f").1
    (by decide)

/-! ## Claim C7: the configs_only pass only touches the config lists -/

theorem processEvent_configsOnly_frame {defaults : List String}
    {st st1 : SettingsState} {ev : CliEvent}
    (h : processEvent true defaults st ev = .ok st1) :
    st1.objects = st.objects ∧ st1.settingses = st.settingses ∧
    st1.canonicalNames = st.canonicalNames ∧
    st1.allConfigData = st.allConfigData ∧
    (st1.configFiles, st1.requiredConfigFiles) =
      configListStep defaults (st.configFiles, st.requiredConfigFiles) ev := by
  cases ev <;> simp only [processEvent] at h <;> (repeat' split at h) <;>
    first
      | exact absurd trivial (by assumption)
      | (cases h; exact ⟨rfl, rfl, rfl, rfl, rfl⟩)
      | cases h

/-- Claim C7: during a parse pass with configs_only set, every setting
callback is the maybe no-op, so only the config-file lists change: the
store objects, alias dict, canonical names and extra config data are
untouched whatever options appear, and on a successful pass the
config-file list and the required-file list are exactly the fold of the
two unwrapped callbacks, --config appending its argument to both lists
and --no-default-configs clearing both. -/
theorem C7_configs_only_frame :
    ∀ (defaults : List String) (st : SettingsState) (evs : List CliEvent),
      (processEvents true defaults st evs).1.objects = st.objects ∧
      (processEvents true defaults st evs).1.settingses = st.settingses ∧
      (processEvents true defaults st evs).1.canonicalNames =
        st.canonicalNames ∧
      (processEvents true defaults st evs).1.allConfigData =
        st.allConfigData ∧
      ((processEvents true defaults st evs).2 = none →
        ((processEvents true defaults st evs).1.configFiles,
          (processEvents true defaults st evs).1.requiredConfigFiles) =
          evs.foldl (configListStep defaults)
            (st.configFiles, st.requiredConfigFiles)) := by
  intro defaults st evs
  induction evs generalizing st with
  | nil => exact ⟨rfl, rfl, rfl, rfl, fun _ => rfl⟩
  | cons ev rest ih =>
    cases hpe : processEvent true defaults st ev with
    | error e =>
      refine ⟨?_, ?_, ?_, ?_, fun habs => ?_⟩
      · simp [processEvents, hpe]
      · simp [processEvents, hpe]
      · simp [processEvents, hpe]
      · simp [processEvents, hpe]
      · simp [processEvents, hpe] at habs
    | ok st1 =>
      obtain ⟨h1, h2, h3, h4, h5⟩ := processEvent_configsOnly_frame hpe
      obtain ⟨g1, g2, g3, g4, g5⟩ := ih st1
      simp only [processEvents, hpe]
      refine ⟨g1.trans h1, g2.trans h2, g3.trans h3, g4.trans h4, ?_⟩
      intro hok
      rw [List.foldl_cons, ← h5]
      exact g5 hok

/-- Witness for C7_configs_only_frame: a configs_only pass over a
--config occurrence followed by a valid log-level option leaves all
settings of the built-in store untouched and produces exactly the
appended config-file lists. -/
theorem C7_configs_only_frame_witness :
    (processEvents true [] settingsInit
        [.configOpt "/x.conf", .setOpt "log-level" "info"]).1.objects =
      settingsInit.objects ∧
    ((processEvents true [] settingsInit
        [.configOpt "/x.conf", .setOpt "log-level" "info"]).1.configFiles,
      (processEvents true [] settingsInit
        [.configOpt "/x.conf",
          .setOpt "log-level" "info"]).1.requiredConfigFiles) =
      [CliEvent.configOpt "/x.conf",
        CliEvent.setOpt "log-level" "info"].foldl (configListStep [])
        (settingsInit.configFiles, settingsInit.requiredConfigFiles) :=
  ⟨(C7_configs_only_frame [] settingsInit
      [.configOpt "/x.conf", .setOpt "log-level" "info"]).1,
    (C7_configs_only_frame [] settingsInit
      [.configOpt "/x.conf", .setOpt "log-level" "info"]).2.2.2.2
      (by decide)⟩

/-! ## Claim C8: an invalid Choice value exits non-zero, value untouched -/

/-- Claim C8: parsing an argument that gives a Choice setting a value
outside its enumerated choice set, with errors suppressed, exits with
status one (non-zero) and leaves the whole store unchanged, the setting
still holding its default, the first listed choice. -/
theorem C8_choice_invalid_exit :
    ∀ (defaults : List String) (st : SettingsState) (name value : String)
      (i : Nat) (names choices : List String),
      resolveIdx st name = some i →
      objAt st i = some (.choiceS names choices (choices.headD "")) →
      value ∉ choices →
      parse_args true false defaults st [.setOpt name value] =
        (st, some 1) := by
  intro defaults st name value i names choices hres hobj hnot
  have hcontains : choices.contains value = false := by
    cases hc : choices.contains value
    · rfl
    · exact absurd (List.mem_of_elem_eq_true hc) hnot
  unfold parse_args processEvents
  simp only [processEvent, hres, hobj, hcontains, Bool.false_eq_true,
    if_false]
  rfl

/-- Witness for C8_choice_invalid_exit: the built-in store with an added
choice setting level rejects the value bogus and exits with status one,
untouched. -/
theorem C8_choice_invalid_exit_witness :
    parse_args true false []
        (registerChoice settingsInit ["level"] ["alpha", "beta"])
        [.setOpt "level" "bogus"] =
      (registerChoice settingsInit ["level"] ["alpha", "beta"], some 1) :=
  C8_choice_invalid_exit [] _ "level" "bogus" 8 ["level"] ["alpha", "beta"]
    (by decide) (by decide) (by decide)

/-! ## Helper lemmas: config-file loading -/

/-- Re-parsing overwrites: parse_value ignores the current value, so two
successive raw-string assignments keep only the second. -/
theorem parse_value_parse_value (o : SettingObj) (v w : String) :
    parse_value (parse_value o v) w = parse_value o w := by
  cases o <;> rfl

theorem parse_value_postIniFlag (o : SettingObj) (w : String) :
    parse_value (postIniFlag o) w = parse_value o w := by
  cases o <;> rfl

theorem objAt_lt_length {st : SettingsState} {i : Nat} {o : SettingObj}
    (h : objAt st i = some o) : i < st.objects.length :=
  (List.getElem?_eq_some.mp h).1

theorem objAt_setObj_self {st : SettingsState} {i : Nat}
    (h : i < st.objects.length) {x : SettingObj} :
    objAt (setObj st i x) i = some x :=
  List.getElem?_set_self h

theorem objAt_setObj_ne {st : SettingsState} {i j : Nat}
    (h : i ≠ j) {x : SettingObj} :
    objAt (setObj st i x) j = objAt st j :=
  List.getElem?_set_ne h

theorem applyConfigPair_ok {path : String} {st st1 : SettingsState}
    {kv : String × String} (h : applyConfigPair path st kv = .ok st1) :
    ∃ i obj, st.settingses.lookup kv.1 = some i ∧ objAt st i = some obj ∧
      st1 = setObj st i (postIniFlag (parse_value obj kv.2)) := by
  unfold applyConfigPair at h
  split at h
  · cases h
  · split at h
    · cases h
    · cases h
      exact ⟨_, _, by assumption, by assumption, rfl⟩

theorem applyConfigPair_frame {path : String} {st st1 : SettingsState}
    {kv : String × String} (h : applyConfigPair path st kv = .ok st1) :
    st1.settingses = st.settingses ∧
      st1.objects.length = st.objects.length := by
  obtain ⟨i, obj, _, _, rfl⟩ := applyConfigPair_ok h
  exact ⟨rfl, by simp [setObj]⟩

theorem applyConfigPair_stable {path : String} {st st1 : SettingsState}
    {kv : String × String} (h : applyConfigPair path st kv = .ok st1) :
    ∀ (j : Nat) (w : String),
      (objAt st1 j).map (fun o => parse_value o w) =
        (objAt st j).map (fun o => parse_value o w) := by
  obtain ⟨i, obj, hl, ho, rfl⟩ := applyConfigPair_ok h
  intro j w
  by_cases hij : i = j
  · subst hij
    rw [objAt_setObj_self (objAt_lt_length ho), ho]
    simp [parse_value_postIniFlag, parse_value_parse_value]
  · rw [objAt_setObj_ne hij]

theorem applyConfigPair_untouched {path : String} {st st1 : SettingsState}
    {kv : String × String} {i : Nat}
    (h : applyConfigPair path st kv = .ok st1)
    (hne : st.settingses.lookup kv.1 ≠ some i) :
    objAt st1 i = objAt st i := by
  obtain ⟨j, obj, hl, ho, rfl⟩ := applyConfigPair_ok h
  have : j ≠ i := fun he => hne (he ▸ hl)
  rw [objAt_setObj_ne this]

theorem applyConfigPairs_props :
    ∀ (pairs : List (String × String)) (path : String)
      (st st1 : SettingsState),
      applyConfigPairs path st pairs = .ok st1 →
      st1.settingses = st.settingses ∧
      st1.objects.length = st.objects.length ∧
      (∀ (j : Nat) (w : String),
        (objAt st1 j).map (fun o => parse_value o w) =
          (objAt st j).map (fun o => parse_value o w)) ∧
      (∀ i : Nat, (∀ kv ∈ pairs, st.settingses.lookup kv.1 ≠ some i) →
        objAt st1 i = objAt st i)
  | [], path, st, st1, h => by
    cases h
    exact ⟨rfl, rfl, fun j w => rfl, fun i _ => rfl⟩
  | kv :: rest, path, st, st1, h => by
    unfold applyConfigPairs at h
    split at h
    · cases h
    · rename_i stm hm
      obtain ⟨f1, f2⟩ := applyConfigPair_frame hm
      obtain ⟨g1, g2, g3, g4⟩ := applyConfigPairs_props rest path stm st1 h
      refine ⟨g1.trans f1, g2.trans f2, ?_, ?_⟩
      · intro j w
        rw [g3 j w, applyConfigPair_stable hm j w]
      · intro i hne
        have hne1 : st.settingses.lookup kv.1 ≠ some i :=
          hne kv (List.mem_cons_self kv rest)
        have hner : ∀ kv2 ∈ rest, stm.settingses.lookup kv2.1 ≠ some i := by
          intro kv2 hkv2
          rw [f1]
          exact hne kv2 (List.mem_cons_of_mem kv hkv2)
        rw [g4 i hner, applyConfigPair_untouched hm hne1]

theorem applyConfigPairs_ok_of_known :
    ∀ (pairs : List (String × String)) (path : String) (st : SettingsState),
      (∀ kv ∈ pairs, ∃ j, st.settingses.lookup kv.1 = some j ∧
        j < st.objects.length) →
      ∃ st1, applyConfigPairs path st pairs = .ok st1
  | [], path, st, _ => ⟨st, rfl⟩
  | kv :: rest, path, st, hknown => by
    obtain ⟨j, hj, hjlen⟩ := hknown kv (List.mem_cons_self kv rest)
    obtain ⟨obj, hobj⟩ : ∃ obj, objAt st j = some obj :=
      ⟨st.objects[j], List.getElem?_eq_getElem hjlen⟩
    have hpair : applyConfigPair path st kv =
        .ok (setObj st j (postIniFlag (parse_value obj kv.2))) := by
      unfold applyConfigPair
      rw [hj]
      show (match objAt st j with
        | none => Except.error PyErr.internalError
        | some obj => Except.ok
            (setObj st j (postIniFlag (parse_value obj kv.2)))) = _
      rw [hobj]
    set stm := setObj st j (postIniFlag (parse_value obj kv.2)) with hstm
    have hframe : stm.settingses = st.settingses ∧
        stm.objects.length = st.objects.length :=
      applyConfigPair_frame hpair
    obtain ⟨st1, h1⟩ := applyConfigPairs_ok_of_known rest path stm (by
      intro kv2 hkv2
      obtain ⟨j2, hj2, hj2len⟩ := hknown kv2 (List.mem_cons_of_mem kv hkv2)
      exact ⟨j2, hframe.1 ▸ hj2, hframe.2 ▸ hj2len⟩)
    refine ⟨st1, ?_⟩
    unfold applyConfigPairs
    rw [hpair]
    exact h1

theorem applyConfigPairs_append (path : String) :
    ∀ (A B : List (String × String)) (st : SettingsState),
      applyConfigPairs path st (A ++ B) =
        match applyConfigPairs path st A with
        | .error e => .error e
        | .ok st1 => applyConfigPairs path st1 B
  | [], B, st => rfl
  | kv :: rest, B, st => by
    have hl : applyConfigPairs path st ((kv :: rest) ++ B) =
        match applyConfigPair path st kv with
        | .error e => .error e
        | .ok st1 => applyConfigPairs path st1 (rest ++ B) := rfl
    have hr : applyConfigPairs path st (kv :: rest) =
        match applyConfigPair path st kv with
        | .error e => .error e
        | .ok st1 => applyConfigPairs path st1 rest := rfl
    rw [hl, hr]
    rcases hp : applyConfigPair path st kv with e | st1
    · rfl
    · exact applyConfigPairs_append path rest B st1

/-- The last write to a setting object wins: processing a pair list whose
final binding resolving to index i carries raw value v2 leaves at i the
parse of v2 applied to the object as it stood before the list ran. -/
theorem applyConfigPairs_lastwrite (path : String) {st : SettingsState}
    {A B : List (String × String)} {k v2 : String} {i : Nat}
    {o0 : SettingObj}
    (hk : st.settingses.lookup k = some i)
    (ho : objAt st i = some o0)
    (hA : ∀ kv ∈ A, ∃ j, st.settingses.lookup kv.1 = some j ∧
      j < st.objects.length)
    (hB : ∀ kv ∈ B, ∃ j, st.settingses.lookup kv.1 = some j ∧
      j < st.objects.length)
    (hBne : ∀ kv ∈ B, st.settingses.lookup kv.1 ≠ some i) :
    ∃ st1, applyConfigPairs path st (A ++ (k, v2) :: B) = .ok st1 ∧
      st1.settingses = st.settingses ∧
      st1.objects.length = st.objects.length ∧
      objAt st1 i = some (postIniFlag (parse_value o0 v2)) := by
  obtain ⟨stA, hstA⟩ := applyConfigPairs_ok_of_known A path st hA
  obtain ⟨pf1, pf2, pf3, _⟩ := applyConfigPairs_props A path st stA hstA
  have hkA : stA.settingses.lookup k = some i := pf1 ▸ hk
  have hstable := pf3 i v2
  rw [ho] at hstable
  obtain ⟨oA, hoA, hparse⟩ : ∃ oA, objAt stA i = some oA ∧
      parse_value oA v2 = parse_value o0 v2 := by
    rcases hx : objAt stA i with _ | oA
    · rw [hx] at hstable
      cases hstable
    · rw [hx] at hstable
      exact ⟨oA, rfl, Option.some.injEq _ _ ▸ hstable⟩
  have hpair : applyConfigPair path stA (k, v2) =
      .ok (setObj stA i (postIniFlag (parse_value oA v2))) := by
    unfold applyConfigPair
    rw [hkA]
    show (match objAt stA i with
      | none => Except.error PyErr.internalError
      | some obj => Except.ok
          (setObj stA i (postIniFlag (parse_value obj v2)))) = _
    rw [hoA]
  set stm := setObj stA i (postIniFlag (parse_value oA v2)) with hstm
  obtain ⟨mf1, mf2⟩ := applyConfigPair_frame hpair
  have hBm : ∀ kv ∈ B, ∃ j, stm.settingses.lookup kv.1 = some j ∧
      j < stm.objects.length := by
    intro kv hkv
    obtain ⟨j, hj, hjlen⟩ := hB kv hkv
    exact ⟨j, (mf1.trans pf1) ▸ hj, (mf2.trans pf2) ▸ hjlen⟩
  obtain ⟨st1, hst1⟩ := applyConfigPairs_ok_of_known B path stm hBm
  obtain ⟨bf1, bf2, _, bf4⟩ := applyConfigPairs_props B path stm st1 hst1
  have hBnem : ∀ kv ∈ B, stm.settingses.lookup kv.1 ≠ some i := by
    intro kv hkv
    rw [mf1.trans pf1]
    exact hBne kv hkv
  refine ⟨st1, ?_, bf1.trans (mf1.trans pf1), bf2.trans (mf2.trans pf2), ?_⟩
  · rw [applyConfigPairs_append path A ((k, v2) :: B) st, hstA]
    unfold applyConfigPairs
    rw [hpair]
    exact hst1
  · rw [bf4 i hBnem, hstm,
      objAt_setObj_self (objAt_lt_length hoA), hparse]

theorem applyConfigPairs_no_unknown :
    ∀ (pairs : List (String × String)) (path : String) (st : SettingsState),
      (∀ kv ∈ pairs, (st.settingses.lookup kv.1).isSome = true) →
      ∀ m, applyConfigPairs path st pairs ≠
        .error (.unknownConfigVariable m)
  | [], path, st, _, m => by
    intro h
    cases h
  | kv :: rest, path, st, hknown, m => by
    intro h
    unfold applyConfigPairs at h
    split at h
    · rename_i e hpair
      unfold applyConfigPair at hpair
      split at hpair
      · rename_i hnone
        have := hknown kv (List.mem_cons_self kv rest)
        rw [hnone] at this
        cases this
      · split at hpair
        · cases hpair
          cases h
        · cases hpair
    · rename_i stm hpair
      obtain ⟨f1, _⟩ := applyConfigPair_frame hpair
      refine applyConfigPairs_no_unknown rest path stm ?_ m h
      intro kv2 hkv2
      rw [f1]
      exact hknown kv2 (List.mem_cons_of_mem kv hkv2)

theorem read_ini_ok {st st1 : SettingsState} {path : String}
    {file : IniData} (h : read_ini st path file = .ok st1) :
    ∃ st2, applyConfigPairs path st file.config = .ok st2 ∧
      st1.objects = st2.objects ∧ st1.settingses = st2.settingses := by
  unfold read_ini at h
  split at h
  · cases h
  · rename_i st2 h2
    cases h
    exact ⟨st2, h2, rfl, rfl⟩

theorem read_ini_of_pairs {st st2 : SettingsState} {path : String}
    {file : IniData} (h : applyConfigPairs path st file.config = .ok st2) :
    read_ini st path file =
      .ok { st2 with
        allConfigData := file.others.foldl mergeSection st2.allConfigData } := by
  unfold read_ini
  rw [h]

theorem read_ini_props {st st1 : SettingsState} {path : String}
    {file : IniData} (h : read_ini st path file = .ok st1) :
    st1.settingses = st.settingses ∧
      st1.objects.length = st.objects.length ∧
      (∀ (j : Nat) (w : String),
        (objAt st1 j).map (fun o => parse_value o w) =
          (objAt st j).map (fun o => parse_value o w)) := by
  obtain ⟨st2, h2, ho, hs⟩ := read_ini_ok h
  obtain ⟨p1, p2, p3, _⟩ := applyConfigPairs_props _ _ _ _ h2
  have hobj : ∀ j, objAt st1 j = objAt st2 j := by
    intro j
    show st1.objects[j]? = st2.objects[j]?
    rw [ho]
  refine ⟨hs.trans p1, ?_, ?_⟩
  · rw [ho]
    exact p2
  · intro j w
    rw [hobj j]
    exact p3 j w

theorem loadConfigsGo_append (fs : List (String × IniData)) :
    ∀ (xs ys : List String) (st : SettingsState),
      loadConfigsGo fs st (xs ++ ys) =
        match loadConfigsGo fs st xs with
        | .error e => .error e
        | .ok st1 => loadConfigsGo fs st1 ys
  | [], ys, st => rfl
  | p :: rest, ys, st => by
    have hl : loadConfigsGo fs st ((p :: rest) ++ ys) =
        match fs.lookup p with
        | none =>
          if st.requiredConfigFiles.contains p then .error (.ioError p)
          else loadConfigsGo fs st (rest ++ ys)
        | some file =>
          match read_ini st p file with
          | .error e => .error e
          | .ok st1 => loadConfigsGo fs st1 (rest ++ ys) := rfl
    have hr : loadConfigsGo fs st (p :: rest) =
        match fs.lookup p with
        | none =>
          if st.requiredConfigFiles.contains p then .error (.ioError p)
          else loadConfigsGo fs st rest
        | some file =>
          match read_ini st p file with
          | .error e => .error e
          | .ok st1 => loadConfigsGo fs st1 rest := rfl
    rw [hl, hr]
    rcases hfl : fs.lookup p with _ | file
    · simp only [hfl]
      by_cases hreq : st.requiredConfigFiles.contains p = true
      · simp only [hreq, if_true]
      · simp only [hreq, Bool.false_eq_true, if_false]
        exact loadConfigsGo_append fs rest ys st
    · simp only [hfl]
      rcases hri : read_ini st p file with e | st1
      · simp only [hri]
      · simp only [hri]
        exact loadConfigsGo_append fs rest ys st1

theorem loadConfigsGo_no_unknown (fs : List (String × IniData)) :
    ∀ (paths : List String) (st : SettingsState),
      (∀ (path : String) (file : IniData), fs.lookup path = some file →
        ∀ kv ∈ file.config, (st.settingses.lookup kv.1).isSome = true) →
      ∀ m, loadConfigsGo fs st paths ≠ .error (.unknownConfigVariable m)
  | [], st, _, m => by
    intro hc
    cases hc
  | p :: rest, st, hknown, m => by
    intro hc
    unfold loadConfigsGo at hc
    split at hc
    · split at hc
      · cases hc
      · exact loadConfigsGo_no_unknown fs rest st hknown m hc
    · rename_i file hfile
      split at hc
      · rename_i e hri
        cases hc
        unfold read_ini at hri
        split at hri
        · rename_i hpe
          cases hri
          exact applyConfigPairs_no_unknown file.config p st
            (hknown p file hfile) m hpe
        · cases hri
      · rename_i st2 hri
        obtain ⟨r1, _, _⟩ := read_ini_props hri
        refine loadConfigsGo_no_unknown fs rest st2 ?_ m hc
        intro path file2 hfile2 kv hkv
        rw [r1]
        exact hknown path file2 hfile2 kv hkv

/-! ## Claim C5: unknown config keys fail loudly, known ones never do -/

/-- Claim C5: when load_configs reaches a config file whose recognised
config section binds a key not declared under any alias (the earlier
keys of the file being declared), loading raises a fatal
UnknownConfigVariable whose message is the file pathname followed by the
offending key; and when every key of every present file is a declared
setting name, no UnknownConfigVariable is ever raised. -/
theorem C5_unknown_config_variable :
    (∀ (fs : List (String × IniData)) (defaults : List String)
      (st st1 : SettingsState) (ps1 ps2 : List String) (path : String)
      (file : IniData) (A B : List (String × String)) (k v : String),
      st.configFiles.getD defaults = ps1 ++ path :: ps2 →
      loadConfigsGo fs
        { st with
          allConfigData := [],
          configFiles := some (ps1 ++ path :: ps2) } ps1 = .ok st1 →
      fs.lookup path = some file →
      file.config = A ++ (k, v) :: B →
      (∀ kv ∈ A, ∃ j, st1.settingses.lookup kv.1 = some j ∧
        j < st1.objects.length) →
      st1.settingses.lookup k = none →
      load_configs fs defaults st =
          .error (.unknownConfigVariable (unknownMsg path k)) ∧
        unknownMsg path k =
          path ++ (": Unknown configuration variable " ++ k)) ∧
    (∀ (fs : List (String × IniData)) (defaults : List String)
      (st : SettingsState),
      (∀ (path : String) (file : IniData), fs.lookup path = some file →
        ∀ kv ∈ file.config, (st.settingses.lookup kv.1).isSome = true) →
      ∀ m, load_configs fs defaults st ≠
        .error (.unknownConfigVariable m)) := by
  constructor
  · intro fs defaults st st1 ps1 ps2 path file A B k v hfiles hpre hfile
      hsplit hA hk
    refine ⟨?_, by simp [unknownMsg, String.append_assoc]⟩
    unfold load_configs
    rw [hfiles, loadConfigsGo_append fs ps1 (path :: ps2) _, hpre]
    show loadConfigsGo fs st1 (path :: ps2) = _
    have hgo : loadConfigsGo fs st1 (path :: ps2) =
        match fs.lookup path with
        | none =>
          if st1.requiredConfigFiles.contains path then
            .error (.ioError path)
          else loadConfigsGo fs st1 ps2
        | some file =>
          match read_ini st1 path file with
          | .error e => .error e
          | .ok st2 => loadConfigsGo fs st2 ps2 := rfl
    rw [hgo]
    simp only [hfile]
    obtain ⟨stA, hstA⟩ := applyConfigPairs_ok_of_known A path st1 hA
    obtain ⟨p1, _, _, _⟩ := applyConfigPairs_props A path st1 stA hstA
    have hkA : stA.settingses.lookup k = none := p1 ▸ hk
    have hpairs : applyConfigPairs path st1 file.config =
        .error (.unknownConfigVariable (unknownMsg path k)) := by
      rw [hsplit, applyConfigPairs_append path A ((k, v) :: B) st1, hstA]
      show applyConfigPairs path stA ((k, v) :: B) = _
      have hstep : applyConfigPairs path stA ((k, v) :: B) =
          match applyConfigPair path stA (k, v) with
          | .error e => .error e
          | .ok stm => applyConfigPairs path stm B := rfl
      rw [hstep]
      have hpair : applyConfigPair path stA (k, v) =
          .error (.unknownConfigVariable (unknownMsg path k)) := by
        unfold applyConfigPair
        rw [hkA]
      rw [hpair]
    have hri : read_ini st1 path file =
        .error (.unknownConfigVariable (unknownMsg path k)) := by
      unfold read_ini
      rw [hpairs]
    simp only [hri]
  · intro fs defaults st hknown m
    show loadConfigsGo fs
      { st with
        allConfigData := [],
        configFiles := some (st.configFiles.getD defaults) }
      (st.configFiles.getD defaults) ≠ _
    exact loadConfigsGo_no_unknown fs (st.configFiles.getD defaults)
      { st with
        allConfigData := [],
        configFiles := some (st.configFiles.getD defaults) } hknown m

/-- Witness for C5_unknown_config_variable: a one-file list whose file
binds the undeclared key nope raises the expected message, while a file
binding only the declared key output loads without an
UnknownConfigVariable error. -/
theorem C5_unknown_config_variable_witness :
    load_configs [("/a.conf", ⟨[("nope", "1")], []⟩)] []
        { settingsInit with configFiles := some ["/a.conf"] } =
      .error (.unknownConfigVariable
        "/a.conf: Unknown configuration variable nope") ∧
    (load_configs [] []
        { settingsInit with configFiles := some ["/b.conf"] } ≠
      .error (.unknownConfigVariable "boom")) :=
  ⟨(C5_unknown_config_variable.1 [("/a.conf", ⟨[("nope", "1")], []⟩)] []
      { settingsInit with configFiles := some ["/a.conf"] } _ [] [] "/a.conf"
      ⟨[("nope", "1")], []⟩ [] [] "nope" "1" (by decide) rfl (by decide)
      rfl (by decide) (by decide)).1,
    C5_unknown_config_variable.2 [] []
      { settingsInit with configFiles := some ["/b.conf"] }
      (by intro path file hf kv hkv; simp [List.lookup] at hf) "boom"⟩

/-! ## Claim C6: later config files win for the same key -/

/-- Claim C6: load_configs processes the config-file list in order, and
when both files of a two-file list set the same setting key, the value
after loading is the one parsed from the later file: the final object of
the setting is exactly parse_value of the later file's raw value applied
to the original object (with the using-default reset of _read_ini),
independent of the earlier file's binding.  The hypotheses require every
key of both files to be declared, name the last binding of the later
file that resolves to the setting, and record that the earlier file also
sets the key. -/
theorem C6_last_write_wins :
    ∀ (fs : List (String × IniData)) (defaults : List String)
      (st : SettingsState) (p1 p2 : String) (d1 d2 : IniData)
      (A B : List (String × String)) (k v2 : String) (i : Nat)
      (o0 : SettingObj),
      st.configFiles.getD defaults = [p1, p2] →
      fs.lookup p1 = some d1 →
      fs.lookup p2 = some d2 →
      (∀ kv ∈ d1.config, ∃ j, st.settingses.lookup kv.1 = some j ∧
        j < st.objects.length) →
      d2.config = A ++ (k, v2) :: B →
      (∀ kv ∈ A, ∃ j, st.settingses.lookup kv.1 = some j ∧
        j < st.objects.length) →
      (∀ kv ∈ B, ∃ j, st.settingses.lookup kv.1 = some j ∧
        j < st.objects.length) →
      st.settingses.lookup k = some i →
      objAt st i = some o0 →
      (∀ kv ∈ B, st.settingses.lookup kv.1 ≠ some i) →
      k ∈ d1.config.map Prod.fst →
      ∃ st2, load_configs fs defaults st = .ok st2 ∧
        objAt st2 i = some (postIniFlag (parse_value o0 v2)) := by
  intro fs defaults st p1 p2 d1 d2 A B k v2 i o0 hfiles hf1 hf2 hd1known
    hsplit hAknown hBknown hk hobj hBne hd1k
  set st0 : SettingsState :=
    { st with
      allConfigData := [],
      configFiles := some [p1, p2] } with hst0
  have hknown0 : ∀ kv ∈ d1.config, ∃ j,
      st0.settingses.lookup kv.1 = some j ∧ j < st0.objects.length :=
    hd1known
  obtain ⟨stA2, hA2⟩ := applyConfigPairs_ok_of_known d1.config p1 st0 hknown0
  have hriA : read_ini st0 p1 d1 =
      .ok { stA2 with
        allConfigData := d1.others.foldl mergeSection stA2.allConfigData } :=
    read_ini_of_pairs hA2
  set stA : SettingsState :=
    { stA2 with
      allConfigData := d1.others.foldl mergeSection stA2.allConfigData }
    with hstAdef
  obtain ⟨q1, q2, q3, _⟩ := applyConfigPairs_props d1.config p1 st0 stA2 hA2
  have hkA : stA.settingses.lookup k = some i := by
    show stA2.settingses.lookup k = some i
    rw [q1]
    exact hk
  have hobj0 : objAt st0 i = some o0 := hobj
  have hstable := q3 i v2
  rw [hobj0] at hstable
  obtain ⟨oA, hoA, hparse⟩ : ∃ oA, objAt stA2 i = some oA ∧
      parse_value oA v2 = parse_value o0 v2 := by
    rcases hx : objAt stA2 i with _ | oA
    · rw [hx] at hstable
      cases hstable
    · rw [hx] at hstable
      exact ⟨oA, rfl, Option.some.injEq _ _ ▸ hstable⟩
  have hoAA : objAt stA i = some oA := hoA
  have hAknownA : ∀ kv ∈ A, ∃ j, stA.settingses.lookup kv.1 = some j ∧
      j < stA.objects.length := by
    intro kv hkv
    obtain ⟨j, hj, hl⟩ := hAknown kv hkv
    refine ⟨j, ?_, ?_⟩
    · show stA2.settingses.lookup kv.1 = some j
      rw [q1]
      exact hj
    · show j < stA2.objects.length
      rw [q2]
      exact hl
  have hBknownA : ∀ kv ∈ B, ∃ j, stA.settingses.lookup kv.1 = some j ∧
      j < stA.objects.length := by
    intro kv hkv
    obtain ⟨j, hj, hl⟩ := hBknown kv hkv
    refine ⟨j, ?_, ?_⟩
    · show stA2.settingses.lookup kv.1 = some j
      rw [q1]
      exact hj
    · show j < stA2.objects.length
      rw [q2]
      exact hl
  have hBneA : ∀ kv ∈ B, stA.settingses.lookup kv.1 ≠ some i := by
    intro kv hkv
    show stA2.settingses.lookup kv.1 ≠ some i
    rw [q1]
    exact hBne kv hkv
  obtain ⟨stB2, hB2, r1, r2, r3⟩ :=
    applyConfigPairs_lastwrite p2 hkA hoAA hAknownA hBknownA hBneA
  have hB2d : applyConfigPairs p2 stA d2.config = .ok stB2 := by
    rw [hsplit]
    exact hB2
  have hriB : read_ini stA p2 d2 =
      .ok { stB2 with
        allConfigData := d2.others.foldl mergeSection stB2.allConfigData } :=
    read_ini_of_pairs hB2d
  set stB : SettingsState :=
    { stB2 with
      allConfigData := d2.others.foldl mergeSection stB2.allConfigData }
    with hstBdef
  have hrun : loadConfigsGo fs st0 [p1, p2] = .ok stB := by
    have e1 : loadConfigsGo fs st0 [p1, p2] =
        match fs.lookup p1 with
        | none =>
          if st0.requiredConfigFiles.contains p1 then .error (.ioError p1)
          else loadConfigsGo fs st0 [p2]
        | some f =>
          match read_ini st0 p1 f with
          | .error e => .error e
          | .ok s => loadConfigsGo fs s [p2] := rfl
    rw [e1]
    simp only [hf1, hriA]
    have e2 : loadConfigsGo fs stA [p2] =
        match fs.lookup p2 with
        | none =>
          if stA.requiredConfigFiles.contains p2 then .error (.ioError p2)
          else loadConfigsGo fs stA []
        | some f =>
          match read_ini stA p2 f with
          | .error e => .error e
          | .ok s => loadConfigsGo fs s [] := rfl
    rw [e2]
    simp only [hf2, hriB]
    rfl
  refine ⟨stB, ?_, ?_⟩
  · unfold load_configs
    rw [hfiles]
    exact hrun
  · have : objAt stB i = some (postIniFlag (parse_value oA v2)) := r3
    rw [hparse] at this
    exact this

/-- Witness for C6_last_write_wins: two files both setting the string
setting output; after loading, output holds the second file's value. -/
theorem C6_last_write_wins_witness :
    ∃ st2, load_configs
        [("/b.conf", ⟨[("output", "first")], []⟩),
          ("/c.conf", ⟨[("output", "second")], []⟩)] []
        { settingsInit with configFiles := some ["/b.conf", "/c.conf"] } =
        .ok st2 ∧
      objAt st2 0 = some (postIniFlag
        (parse_value (.stringS ["output"] (some "")) "second")) :=
  C6_last_write_wins
    [("/b.conf", ⟨[("output", "first")], []⟩),
      ("/c.conf", ⟨[("output", "second")], []⟩)] []
    { settingsInit with configFiles := some ["/b.conf", "/c.conf"] }
    "/b.conf" "/c.conf" ⟨[("output", "first")], []⟩
    ⟨[("output", "second")], []⟩ [] [] "output" "second" 0
    (.stringS ["output"] (some "")) (by decide) (by decide) (by decide)
    (by decide) rfl (by decide) (by decide) (by decide) (by decide)
    (by decide) (by decide)

end Cliapp
